import Mathlib

/-!
Verification of the LocalDesk-Skills repository against its specification.

The repository's executable logic is:
* `skills/media-assistant/scripts/get_ffmpeg_path.py` — an ordered-fallback
  resolver locating the ffmpeg executable, plus a CLI `main`;
* validation test suites over markdown files:
  `test/media-assistant/test_skill_instructions.py` (frontmatter format checks)
  and `tests/rust-ffmpeg/test_links.py`, `tests/rust-ffmpeg/test_skill_frontmatter.py`
  (internal-link integrity and description-length checks).

Each Python function relevant to the claims is shallowly embedded as an
executable Lean definition, parameterised over an explicit model of the
pieces of environment the Python code reads implicitly (installed optional
package, OS search path, filesystem contents).
-/

set_option maxHeartbeats 1000000

namespace FfmpegPath

/-- The implicit environment read by `get_ffmpeg_path`:
* `imageio`: `none` models `import imageio_ffmpeg` raising `ImportError`
  (package not installed); `some p` models the import succeeding with
  `get_ffmpeg_exe()` returning the string `p` (Python string truthiness:
  `""` is falsy, any other string truthy);
* `pathWhich`: the value of `shutil.which("ffmpeg")` — `none` models Python
  `None` (not found on the OS search path), `some q` a returned string `q`. -/
structure Env where
  imageio : Option String
  pathWhich : Option String

/-- The exact message of the `RuntimeError` raised by `get_ffmpeg_path` when
no strategy succeeds (source lines 48–51). -/
def ffmpegNotFoundMessage : String :=
  "FFmpeg not found. Install with: pip install imageio-ffmpeg\nOr install ffmpeg system-wide: https://ffmpeg.org/download.html"

/-- The fallback block of `get_ffmpeg_path` (source lines 41–51): look up
`shutil.which("ffmpeg")`; `if system_ffmpeg: return system_ffmpeg`; otherwise
raise `RuntimeError(ffmpegNotFoundMessage)`.  `Except.error` models the raise. -/
def systemFallback (which : Option String) : Except String String :=
  match which with
  | some q => if q = "" then Except.error ffmpegNotFoundMessage else Except.ok q
  | none => Except.error ffmpegNotFoundMessage

/-- Embedding of `get_ffmpeg_path` (source lines 19–51): try
`imageio_ffmpeg.get_ffmpeg_exe()` first, treating `ImportError` (`none`) and a
falsy path (`some ""`) as a skip; then fall through to the `shutil.which`
fallback. -/
def get_ffmpeg_path (env : Env) : Except String String :=
  match env.imageio with
  | some path => if path = "" then systemFallback env.pathWhich else Except.ok path
  | none => systemFallback env.pathWhich

/-- Instrumented variant of `get_ffmpeg_path` with a flag recording whether
control ever reached the second strategy (the `shutil.which` lookup).  The
result component is the same computation as `get_ffmpeg_path`. -/
def get_ffmpeg_path_traced (env : Env) : Except String String × Bool :=
  match env.imageio with
  | some path =>
      if path = "" then (systemFallback env.pathWhich, true) else (Except.ok path, false)
  | none => (systemFallback env.pathWhich, true)

/-- The only process-global state the Python function touches: the module
cache (`sys.modules`), which the `import` statements populate; it never
influences which value `get_ffmpeg_exe()`/`shutil.which` produce for a fixed
environment. -/
structure PyModules where
  imageioLoaded : Bool
  shutilLoaded : Bool

/-- One call of `get_ffmpeg_path` threaded through the import-cache state:
the `from imageio_ffmpeg import ...` statement marks the module loaded when
the import succeeds, and the fallback path executes `import shutil`.  The
returned value is computed exactly as in `get_ffmpeg_path`. -/
def get_ffmpeg_path_call (env : Env) (st : PyModules) : Except String String × PyModules :=
  match env.imageio with
  | some path =>
      if path = "" then
        (systemFallback env.pathWhich, { imageioLoaded := true, shutilLoaded := true })
      else
        (Except.ok path, { st with imageioLoaded := true })
  | none => (systemFallback env.pathWhich, { st with shutilLoaded := true })

/-- Observable outcome of one CLI run of the script. -/
structure CLIOutcome where
  exitCode : Nat
  stdoutLines : List String
  stderrLines : List String

/-- Embedding of `main` (source lines 54–61): print the resolved path to
stdout and return 0 on success; print the `RuntimeError` message to stderr and
return 1 on failure. -/
def main (env : Env) : CLIOutcome :=
  match get_ffmpeg_path env with
  | Except.ok path => { exitCode := 0, stdoutLines := [path], stderrLines := [] }
  | Except.error e => { exitCode := 1, stdoutLines := [], stderrLines := [e] }

/-- Character-list prefix test (used to state substring containment). -/
def isPrefixChars : List Char → List Char → Bool
  | [], _ => true
  | _ :: _, [] => false
  | p :: ps, c :: cs => p == c && isPrefixChars ps cs

/-- Substring test: `containsChars pat cs` holds iff `pat` occurs as a
contiguous substring of `cs` — the model of Python's `pat in s` for strings. -/
def containsChars (pat : List Char) : List Char → Bool
  | [] => isPrefixChars pat []
  | c :: rest => isPrefixChars pat (c :: rest) || containsChars pat rest

/-- Model of Python's case folding for the ASCII range (sufficient here: it is
only applied to the concrete error message, which is ASCII). -/
def asciiLowerChar (c : Char) : Char :=
  if decide ('A' ≤ c) && decide (c ≤ 'Z') then Char.ofNat (c.toNat + 32) else c

theorem get_ffmpeg_path_traced_fst (env : Env) :
    (get_ffmpeg_path_traced env).1 = get_ffmpeg_path env := by
  unfold get_ffmpeg_path_traced get_ffmpeg_path
  cases env.imageio with
  | none => rfl
  | some p => by_cases h : p = "" <;> simp [h]

/-- C1: if the bundled-binary provider is importable and `get_ffmpeg_exe`
returns a non-empty path `p`, then `get_ffmpeg_path` returns exactly `p`, the
`shutil.which` strategy is never reached, and the result is independent of the
OS search-path state. -/
theorem c1_provider_path_wins (env : Env) (p : String)
    (himp : env.imageio = some p) (hne : p ≠ "") :
    get_ffmpeg_path env = Except.ok p ∧
    get_ffmpeg_path_traced env = (Except.ok p, false) ∧
    ∀ w : Option String, get_ffmpeg_path { env with pathWhich := w } = Except.ok p := by
  refine ⟨?_, ?_, ?_⟩ <;>
    simp [get_ffmpeg_path, get_ffmpeg_path_traced, himp, hne]

theorem c1_provider_path_wins_witness :
    get_ffmpeg_path ⟨some "/fake/path/ffmpeg", some "/usr/bin/ffmpeg"⟩ =
      Except.ok "/fake/path/ffmpeg" ∧
    get_ffmpeg_path_traced ⟨some "/fake/path/ffmpeg", some "/usr/bin/ffmpeg"⟩ =
      (Except.ok "/fake/path/ffmpeg", false) ∧
    ∀ w : Option String,
      get_ffmpeg_path ⟨some "/fake/path/ffmpeg", w⟩ = Except.ok "/fake/path/ffmpeg" :=
  c1_provider_path_wins ⟨some "/fake/path/ffmpeg", some "/usr/bin/ffmpeg"⟩
    "/fake/path/ffmpeg" rfl (by decide)

/-- C2: if importing the provider raises `ImportError` but the OS search path
resolves `"ffmpeg"` to a path `q`, then `get_ffmpeg_path` returns exactly `q`.
(`shutil.which` returns either `None` or an actual file path, which is a
non-empty string.) -/
theorem c2_system_fallback (env : Env) (q : String)
    (himp : env.imageio = none) (hwhich : env.pathWhich = some q) (hne : q ≠ "") :
    get_ffmpeg_path env = Except.ok q := by
  simp [get_ffmpeg_path, systemFallback, himp, hwhich, hne]

theorem c2_system_fallback_witness :
    get_ffmpeg_path ⟨none, some "/usr/bin/ffmpeg"⟩ = Except.ok "/usr/bin/ffmpeg" :=
  c2_system_fallback ⟨none, some "/usr/bin/ffmpeg"⟩ "/usr/bin/ffmpeg" rfl rfl (by decide)

/-- C3: when the provider is absent or yields no path and the OS search finds
no `ffmpeg`, `get_ffmpeg_path` raises (it never returns any path, empty or
otherwise), and the raised message contains the install hint
`"pip install imageio-ffmpeg"`, the substring `"ffmpeg"` case-insensitively,
and the upstream manual-installation URL. -/
theorem c3_failure_message (env : Env)
    (himp : env.imageio = none ∨ env.imageio = some "")
    (hwhich : env.pathWhich = none) :
    get_ffmpeg_path env = Except.error ffmpegNotFoundMessage ∧
    (∀ p : String, get_ffmpeg_path env ≠ Except.ok p) ∧
    containsChars "pip install imageio-ffmpeg".data ffmpegNotFoundMessage.data = true ∧
    containsChars "ffmpeg".data (ffmpegNotFoundMessage.data.map asciiLowerChar) = true ∧
    containsChars "https://ffmpeg.org/download.html".data ffmpegNotFoundMessage.data = true := by
  have herr : get_ffmpeg_path env = Except.error ffmpegNotFoundMessage := by
    rcases himp with h | h <;> simp [get_ffmpeg_path, systemFallback, h, hwhich]
  refine ⟨herr, ?_, by decide, by decide, by decide⟩
  intro p hp
  rw [herr] at hp
  exact Except.noConfusion hp

theorem c3_failure_message_witness :
    get_ffmpeg_path ⟨none, none⟩ = Except.error ffmpegNotFoundMessage ∧
    (∀ p : String, get_ffmpeg_path ⟨none, none⟩ ≠ Except.ok p) ∧
    containsChars "pip install imageio-ffmpeg".data ffmpegNotFoundMessage.data = true ∧
    containsChars "ffmpeg".data (ffmpegNotFoundMessage.data.map asciiLowerChar) = true ∧
    containsChars "https://ffmpeg.org/download.html".data ffmpegNotFoundMessage.data = true :=
  c3_failure_message ⟨none, none⟩ (Or.inl rfl) rfl

/-- C4: an unavailable strategy is a skip, not a fatal error, and the case
"provider installed but returning a falsy path" behaves identically to
"provider not installed": in both, resolution is exactly the `shutil.which`
fallback, whatever the OS search-path state. -/
theorem c4_skip_cases_merge (w : Option String) :
    get_ffmpeg_path ⟨none, w⟩ = systemFallback w ∧
    get_ffmpeg_path ⟨some "", w⟩ = systemFallback w ∧
    get_ffmpeg_path ⟨some "", w⟩ = get_ffmpeg_path ⟨none, w⟩ := by
  refine ⟨rfl, ?_, ?_⟩ <;> simp [get_ffmpeg_path]

/-- C5: `main` prints the resolved path to stdout and exits 0 exactly when
`get_ffmpeg_path` succeeds; on failure it prints the raised message to stderr
and exits 1, never suppressing the failure. -/
theorem c5_cli_boundary (env : Env) :
    (∀ p, get_ffmpeg_path env = Except.ok p →
      main env = ⟨0, [p], []⟩) ∧
    (∀ e, get_ffmpeg_path env = Except.error e →
      main env = ⟨1, [], [e]⟩) ∧
    ((main env).exitCode = 0 ↔ ∃ p, get_ffmpeg_path env = Except.ok p) := by
  refine ⟨fun p hp => by simp [main, hp], fun e he => by simp [main, he], ?_⟩
  constructor
  · intro h0
    cases hres : get_ffmpeg_path env with
    | ok p => exact ⟨p, rfl⟩
    | error e => simp [main, hres] at h0
  · rintro ⟨p, hp⟩
    simp [main, hp]

theorem c5_cli_boundary_witness :
    main ⟨some "/fake/path/ffmpeg", none⟩ = ⟨0, ["/fake/path/ffmpeg"], []⟩ ∧
    main ⟨none, none⟩ = ⟨1, [], [ffmpegNotFoundMessage]⟩ :=
  ⟨(c5_cli_boundary ⟨some "/fake/path/ffmpeg", none⟩).1 "/fake/path/ffmpeg" rfl,
   (c5_cli_boundary ⟨none, none⟩).2.1 ffmpegNotFoundMessage rfl⟩

theorem systemFallback_ok_nonempty (w : Option String) (q : String)
    (h : systemFallback w = Except.ok q) : q ≠ "" := by
  cases w with
  | none => simp [systemFallback] at h
  | some r =>
      by_cases hr : r = ""
      · simp [systemFallback, hr] at h
      · simp [systemFallback, hr] at h
        exact h ▸ hr

/-- C6: whenever `get_ffmpeg_path` returns a path rather than raising, that
path is a non-empty string. -/
theorem c6_returned_path_nonempty (env : Env) (p : String)
    (h : get_ffmpeg_path env = Except.ok p) : p ≠ "" := by
  cases him : env.imageio with
  | none =>
      simp [get_ffmpeg_path, him] at h
      exact systemFallback_ok_nonempty _ _ h
  | some r =>
      by_cases hr : r = ""
      · simp [get_ffmpeg_path, him, hr] at h
        exact systemFallback_ok_nonempty _ _ h
      · simp [get_ffmpeg_path, him, hr] at h
        exact h ▸ hr

theorem c6_returned_path_nonempty_witness : "/usr/bin/ffmpeg" ≠ "" :=
  c6_returned_path_nonempty ⟨none, some "/usr/bin/ffmpeg"⟩ "/usr/bin/ffmpeg" rfl

/-- C7: with the one piece of process-global state the code touches (the
module import cache) threaded explicitly, the call's result never depends on
that state, two consecutive calls under an unchanged environment return the
same result, and each call's result is the pure function of the environment
`get_ffmpeg_path`. -/
theorem c7_idempotent_stateless (env : Env) (st st' : PyModules) :
    (get_ffmpeg_path_call env st).1 = get_ffmpeg_path env ∧
    (get_ffmpeg_path_call env st).1 = (get_ffmpeg_path_call env st').1 ∧
    (get_ffmpeg_path_call env (get_ffmpeg_path_call env st).2).1 =
      (get_ffmpeg_path_call env st).1 := by
  have hpure : ∀ s : PyModules, (get_ffmpeg_path_call env s).1 = get_ffmpeg_path env := by
    intro s
    unfold get_ffmpeg_path_call get_ffmpeg_path
    cases env.imageio with
    | none => rfl
    | some p => by_cases h : p = "" <;> simp [h]
  exact ⟨hpure st, by rw [hpure st, hpure st'], by rw [hpure _, hpure st]⟩

end FfmpegPath

namespace Frontmatter

/-- Embedding of `test_skill_description_non_empty`
(`test/media-assistant/test_skill_instructions.py`, lines 37–44), applied to
the already-extracted description string: the test passes iff
`len(desc) > 0` and `len(desc) <= 1024`. -/
def test_skill_description_non_empty (desc : String) : Bool :=
  decide (0 < desc.length) && decide (desc.length ≤ 1024)

/-- Embedding of `test_description_length_reasonable`
(`tests/rust-ffmpeg/test_skill_frontmatter.py`, lines 25–28): the test passes
iff `len(desc) < 4096`. -/
def test_description_length_reasonable (desc : String) : Bool :=
  decide (desc.length < 4096)

/-- C10: the two suites enforce different description-length bounds — the
media-assistant check accepts only descriptions of length at most 1024, the
rust-ffmpeg check accepts every description shorter than 4096 characters, and
a 2000-character description separates the two. -/
theorem c10_description_length_bounds (d : String) :
    (test_skill_description_non_empty d = true → d.length ≤ 1024) ∧
    (d.length < 4096 → test_description_length_reasonable d = true) ∧
    (test_description_length_reasonable (String.mk (List.replicate 2000 'a')) = true ∧
     test_skill_description_non_empty (String.mk (List.replicate 2000 'a')) = false) := by
  refine ⟨?_, ?_, ?_, ?_⟩
  · intro h
    simp only [test_skill_description_non_empty, Bool.and_eq_true, decide_eq_true_eq] at h
    exact h.2
  · intro h
    simp [test_description_length_reasonable, h]
  · have hlen : (String.mk (List.replicate 2000 'a')).length = 2000 :=
      List.length_replicate 2000 'a'
    unfold test_description_length_reasonable
    rw [hlen]
    decide
  · have hlen : (String.mk (List.replicate 2000 'a')).length = 2000 :=
      List.length_replicate 2000 'a'
    unfold test_skill_description_non_empty
    rw [hlen]
    decide

theorem c10_description_length_bounds_witness :
    String.length "media description" ≤ 1024 ∧
    test_description_length_reasonable "media description" = true :=
  ⟨(c10_description_length_bounds "media description").1 (by decide),
   (c10_description_length_bounds "media description").2.1 (by decide)⟩

end Frontmatter

namespace SkillInstructions

/-- Lowercase ASCII letter or digit. -/
def isLowerAlnum (c : Char) : Bool :=
  (decide ('a' ≤ c) && decide (c ≤ 'z')) || (decide ('0' ≤ c) && decide (c ≤ '9'))

/-- Character class `[a-z0-9\-]` of the name regex. -/
def regexNameChar (c : Char) : Bool := isLowerAlnum c || c == '-'

/-- Models Python `name == name.lower()`: no character changes under case
folding.  ASCII folding suffices for the overall test value: any character on
which Unicode folding differs from `asciiLowerChar` is outside `[a-z0-9\-]`
and already fails the regex conjunct of the test. -/
def nameIsLowercase (s : String) : Bool :=
  s.data.all fun c => FfmpegPath.asciiLowerChar c == c

/-- Models Python `name.startswith("-")`. -/
def startsWithHyphen : List Char → Bool
  | [] => false
  | c :: _ => c == '-'

/-- Models Python `name.endswith(t)` for a single character `t`. -/
def endsWithChar (t : Char) : List Char → Bool
  | [] => false
  | c :: rest => if rest.isEmpty then c == t else endsWithChar t rest

/-- Models Python `"--" in name`: two adjacent hyphens occur somewhere. -/
def hasConsecHyphens : List Char → Bool
  | [] => false
  | c :: rest => (c == '-' && startsWithHyphen rest) || hasConsecHyphens rest

/-- The portion of the string that `$` must close: Python's `$` also matches
just before a single newline at the very end of the string, so such a newline
is not part of the required match. -/
def stripTrailingNewline (cs : List Char) : List Char :=
  if endsWithChar '\n' cs then cs.dropLast else cs

/-- Models Python `re.match(r"^[a-z0-9\-]+$", s)` being non-`None`: a full
match of one or more class characters up to the position accepted by `$`. -/
def pyFullMatchNameRegex (cs : List Char) : Bool :=
  !(stripTrailingNewline cs).isEmpty && (stripTrailingNewline cs).all regexNameChar

/-- Embedding of `test_skill_name_format`
(`test/media-assistant/test_skill_instructions.py`, lines 47–57), applied to
the already-extracted name string: the conjunction of its five asserts. -/
def test_skill_name_format (s : String) : Bool :=
  nameIsLowercase s &&
  !hasConsecHyphens s.data &&
  !startsWithHyphen s.data &&
  !endsWithChar '-' s.data &&
  pyFullMatchNameRegex s.data

/-- Follows the spec's words "lowercase, hyphenated, no consecutive hyphens":
the name is one or more nonempty words of lowercase letters and digits joined
by single hyphens.  The flag records whether the scan is just past a word
character (so that a hyphen, or the end of the name, is currently allowed). -/
def kebabAux : List Char → Bool → Bool
  | [], inWord => inWord
  | c :: rest, inWord =>
    if isLowerAlnum c then kebabAux rest true
    else if c == '-' then inWord && kebabAux rest false
    else false

/-- Spec-side name format: a lowercase, hyphenated name with no consecutive
hyphens, read as words of `[a-z0-9]` joined by single hyphens. -/
def specNameFormat (s : String) : Bool := kebabAux s.data false

theorem isLowerAlnum_ne_hyphen (c : Char) (h : isLowerAlnum c = true) :
    (c == '-') = false := by
  cases hcd : c == '-'
  · rfl
  · have hc : c = '-' := eq_of_beq hcd
    subst hc
    exact absurd h (by decide)

theorem kebabAux_cons (c : Char) (rest : List Char) (b : Bool) :
    kebabAux (c :: rest) b =
      if isLowerAlnum c then kebabAux rest true
      else if c == '-' then b && kebabAux rest false
      else false := rfl

theorem hasConsecHyphens_cons (c : Char) (rest : List Char) :
    hasConsecHyphens (c :: rest) =
      ((c == '-' && startsWithHyphen rest) || hasConsecHyphens rest) := rfl

theorem startsWithHyphen_cons (c : Char) (rest : List Char) :
    startsWithHyphen (c :: rest) = (c == '-') := rfl

theorem endsWithChar_cons_cons (t c e : Char) (es : List Char) :
    endsWithChar t (c :: e :: es) = endsWithChar t (e :: es) := rfl

theorem kebabAux_characterization : ∀ (cs : List Char) (b : Bool),
    kebabAux cs b =
      (cs.all regexNameChar && !hasConsecHyphens cs && !endsWithChar '-' cs &&
       (b || (!startsWithHyphen cs && !cs.isEmpty))) := by
  intro cs
  induction cs with
  | nil => intro b; cases b <;> rfl
  | cons c rest ih =>
      intro b
      rw [kebabAux_cons, List.all_cons, hasConsecHyphens_cons, startsWithHyphen_cons]
      cases hc : isLowerAlnum c with
      | true =>
          have hcd := isLowerAlnum_ne_hyphen c hc
          have hreg : regexNameChar c = true := by simp [regexNameChar, hc]
          rw [if_pos rfl, ih, hreg, hcd]
          cases rest with
          | nil => cases b <;> simp [endsWithChar, hcd]
          | cons e es =>
              rw [endsWithChar_cons_cons]
              simp only [List.isEmpty_cons]
              cases hA : (e :: es).all regexNameChar <;>
                cases hB : hasConsecHyphens (e :: es) <;>
                  cases hC : endsWithChar '-' (e :: es) <;>
                    cases hS : startsWithHyphen (e :: es) <;>
                      cases b <;> decide
      | false =>
          cases hcd : c == '-' with
          | false =>
              have hreg : regexNameChar c = false := by simp [regexNameChar, hc, hcd]
              rw [hreg, if_neg (fun hf => Bool.noConfusion hf),
                if_neg (fun hf => Bool.noConfusion hf)]
              simp
          | true =>
              have hc' : c = '-' := eq_of_beq hcd
              subst hc'
              have hreg : regexNameChar '-' = true := by decide
              rw [if_neg (fun hf => Bool.noConfusion hf), if_pos rfl, ih, hreg]
              cases rest with
              | nil => cases b <;> decide
              | cons e es =>
                  rw [endsWithChar_cons_cons]
                  simp only [List.isEmpty_cons]
                  cases hA : (e :: es).all regexNameChar <;>
                    cases hB : hasConsecHyphens (e :: es) <;>
                      cases hC : endsWithChar '-' (e :: es) <;>
                        cases hS : startsWithHyphen (e :: es) <;>
                          cases b <;> decide

theorem endsWithChar_eq_false_of_not_mem (t : Char) :
    ∀ cs : List Char, t ∉ cs → endsWithChar t cs = false := by
  intro cs
  induction cs with
  | nil => intro _; rfl
  | cons c rest ih =>
      intro h
      have hc : c ≠ t := fun hct => h (hct ▸ List.mem_cons_self c rest)
      have hrest : t ∉ rest := fun hr => h (List.mem_cons_of_mem c hr)
      cases rest with
      | nil => simp [endsWithChar, hc]
      | cons e es => simpa [endsWithChar] using ih hrest

theorem asciiLower_fixed_of_regexNameChar (c : Char) (h : regexNameChar c = true) :
    (FfmpegPath.asciiLowerChar c == c) = true := by
  simp only [regexNameChar, isLowerAlnum, Bool.or_eq_true, Bool.and_eq_true,
    decide_eq_true_eq] at h
  rcases h with (⟨h1, h2⟩ | ⟨h1, h2⟩) | h3
  · have hAZ : ¬ ((decide ('A' ≤ c) && decide (c ≤ 'Z')) = true) := by
      simp only [Bool.and_eq_true, decide_eq_true_eq]
      rintro ⟨-, hz⟩
      exact absurd (le_trans h1 hz) (by decide)
    unfold FfmpegPath.asciiLowerChar
    rw [if_neg hAZ, beq_self_eq_true]
  · have hAZ : ¬ ((decide ('A' ≤ c) && decide (c ≤ 'Z')) = true) := by
      simp only [Bool.and_eq_true, decide_eq_true_eq]
      rintro ⟨ha, -⟩
      exact absurd (le_trans ha h2) (by decide)
    unfold FfmpegPath.asciiLowerChar
    rw [if_neg hAZ, beq_self_eq_true]
  · have hc : c = '-' := eq_of_beq h3
    subst hc
    decide

theorem nameIsLowercase_of_all_regexNameChar (s : String)
    (h : s.data.all regexNameChar = true) : nameIsLowercase s = true := by
  rw [nameIsLowercase, List.all_eq_true]
  intro c hc
  exact asciiLower_fixed_of_regexNameChar c (List.all_eq_true.mp h c hc)

/-- C8: for every candidate name (the extracted frontmatter `name` value,
which never contains a newline), `test_skill_name_format` accepts it exactly
when it is a lowercase, hyphenated name with no consecutive hyphens — one or
more nonempty words of lowercase letters and digits joined by single
hyphens. -/
theorem c8_name_format (s : String) (h : '\n' ∉ s.data) :
    test_skill_name_format s = specNameFormat s := by
  have hnl : endsWithChar '\n' s.data = false :=
    endsWithChar_eq_false_of_not_mem '\n' s.data h
  have hbody : stripTrailingNewline s.data = s.data := by
    unfold stripTrailingNewline
    rw [hnl]
    exact if_neg (fun hf => Bool.noConfusion hf)
  unfold test_skill_name_format pyFullMatchNameRegex specNameFormat
  rw [kebabAux_characterization, hbody]
  cases hall : s.data.all regexNameChar with
  | false => simp [hall]
  | true =>
      have hlow := nameIsLowercase_of_all_regexNameChar s hall
      rw [hlow]
      cases hdd : hasConsecHyphens s.data <;>
        cases hsw : startsWithHyphen s.data <;>
          cases hew : endsWithChar '-' s.data <;>
            cases hie : s.data.isEmpty <;> decide

theorem c8_name_format_witness :
    ('\n' ∉ "media-assistant".data ∧
      test_skill_name_format "media-assistant" = specNameFormat "media-assistant") ∧
    test_skill_name_format "media-assistant" = true :=
  ⟨⟨by decide, c8_name_format "media-assistant" (by decide)⟩, by decide⟩

end SkillInstructions

namespace RustFfmpegLinks

/-- Splits a character list at the first character satisfying `p`: returns the
prefix of characters failing `p` together with the suffix starting at the
first satisfying character, or `none` when no character satisfies `p`. -/
def takeUntil (p : Char → Bool) : List Char → Option (List Char × List Char)
  | [] => none
  | c :: rest =>
    if p c then some ([], c :: rest)
    else
      match takeUntil p rest with
      | some (pre, suf) => some (c :: pre, suf)
      | none => none

/-- Index of the last `')'` in the list, if any. -/
def lastCloseParenIdx : List Char → Option Nat
  | [] => none
  | c :: rest =>
    match lastCloseParenIdx rest with
    | some k => some (k + 1)
    | none => if c == ')' then some 0 else none

/-- Attempts to match `LINK_PATTERN = \[([^\]]*)\]\(([^\)#]+)(?:#.*)?\)`
(`tests/rust-ffmpeg/test_links.py`, line 9) at the start of `cs`, with Python
`re` semantics: the negated classes `[^\]]` and `[^\)#]` match any character
including newline, `.` does not match newline, and the greedy optional
fragment `(?:#.*)?` backtracks so that the final `\)` consumes the last `')'`
between the `'#'` and the end of that line.  Returns the captured group 2 (the
link target, fragment excluded) and the remainder of the text after the whole
match; `none` when the pattern does not match at this position. -/
def matchLinkAt (cs : List Char) : Option (List Char × List Char) :=
  match cs with
  | '[' :: afterOpen =>
    match takeUntil (fun c => c == ']') afterOpen with
    | some (_, _ :: afterText) =>
      match afterText with
      | '(' :: afterParen =>
        match takeUntil (fun c => c == ')' || c == '#') afterParen with
        | some (tgt, stop :: afterStop) =>
          if tgt.isEmpty then none
          else if stop == ')' then some (tgt, afterStop)
          else
            match lastCloseParenIdx (afterStop.takeWhile (fun c => !(c == '\n'))) with
            | some k => some (tgt, afterStop.drop (k + 1))
            | none => none
        | _ => none
      | _ => none
    | _ => none
  | _ => none

/-- The scan loop of `re.finditer`: try a match at the current position; on
success emit its group 2 and continue after the match, otherwise advance one
character.  `fuel` bounds the number of iterations. -/
def findLinkTargets : Nat → List Char → List (List Char)
  | 0, _ => []
  | fuel + 1, cs =>
    match cs with
    | [] => []
    | _ :: rest =>
      match matchLinkAt cs with
      | some (tgt, after) => tgt :: findLinkTargets fuel after
      | none => findLinkTargets fuel rest

/-- Group-2 targets of the successive non-overlapping matches of
`LINK_PATTERN` in `content`.  Fuel `content.length` always suffices: every
iteration consumes at least one character. -/
def extractTargets (content : List Char) : List (List Char) :=
  findLinkTargets content.length content

/-- Models Python `str.strip()` on the extracted target (ASCII whitespace;
link targets in markdown are ASCII-delimited). -/
def stripWs (cs : List Char) : List Char :=
  ((cs.dropWhile Char.isWhitespace).reverse.dropWhile Char.isWhitespace).reverse

/-- Models `raw_path.startswith(("http://", "https://", "mailto:"))`. -/
def isExternalLink (raw : List Char) : Bool :=
  FfmpegPath.isPrefixChars "http://".data raw ||
  FfmpegPath.isPrefixChars "https://".data raw ||
  FfmpegPath.isPrefixChars "mailto:".data raw

/-- Splits on `'/'`, keeping empty pieces (they are filtered out afterwards,
as `pathlib` ignores empty components). -/
def splitCompAux (cur : List Char) : List Char → List (List Char)
  | [] => [cur.reverse]
  | c :: rest =>
    if c == '/' then cur.reverse :: splitCompAux [] rest
    else splitCompAux (c :: cur) rest

/-- The non-empty `'/'`-separated components of a raw path string. -/
def splitComponents (raw : List Char) : List String :=
  (splitCompAux [] raw).filterMap fun comp =>
    if comp.isEmpty then none else some (String.mk comp)

/-- Lexical normalisation of an absolute component list: drop `"."`, let
`".."` remove the previous component (at the root, `".."` stays at the root).
This models `Path.resolve()` over the symlink-free filesystems of the model. -/
def normComponents (comps : List String) : List String :=
  comps.foldl
    (fun acc comp =>
      if comp = "." then acc
      else if comp = ".." then acc.dropLast
      else acc ++ [comp]) []

/-- Models `(base_dir / raw).resolve()`: a raw path starting with `'/'`
replaces the base (absolute `pathlib` join), otherwise it is appended to the
base directory, given as its absolute component list. -/
def resolveUnder (baseDir : List String) (raw : List Char) : List String :=
  if raw.head? == some '/' then normComponents (splitComponents raw)
  else normComponents (baseDir ++ splitComponents raw)

/-- A collected markdown file: its absolute path (component list) and its
text content. -/
structure MDFile where
  path : List String
  content : List Char

/-- The containing directory of a path: `md_file.parent`. -/
def dirOf (p : List String) : List String := p.dropLast

/-- Embedding of `_extract_internal_links` (lines 12–23): for each regex
target, strip whitespace, skip empty and `http://`/`https://`/`mailto:`
targets, and pair the kept raw path with its resolution against the
containing directory. -/
def extractInternalLinks (content : List Char) (baseDir : List String) :
    List (List Char × List String) :=
  (extractTargets content).filterMap fun tgt =>
    if (stripWs tgt).isEmpty then none
    else if isExternalLink (stripWs tgt) then none
    else some (stripWs tgt, resolveUnder baseDir (stripWs tgt))

/-- Embedding of `_find_broken_links` (lines 36–46), parameterised over the
collected files and over the filesystem, modelled as the list of existing
absolute paths: report `(source path, raw link, resolved path)` for every
kept link whose resolved path does not exist. -/
def findBrokenLinks (fs : List (List String)) (files : List MDFile) :
    List (List String × List Char × List String) :=
  files.flatMap fun f =>
    (extractInternalLinks f.content (dirOf f.path)).filterMap fun link =>
      if fs.contains link.2 then none else some (f.path, link.1, link.2)

/-- Follows the claim's words, not the code: a markdown link is an occurrence
of `[text](target)` or `[text](target#fragment)` — text without `']'`, a
non-empty target without `')'` or `'#'`, and a fragment closed by the next
`')'`.  This differs from `matchLinkAt` only in the fragment case, which here
ends at the first `')'` instead of the last `')'` on the line. -/
def specMatchLinkAt (cs : List Char) : Option (List Char × List Char) :=
  match cs with
  | '[' :: afterOpen =>
    match takeUntil (fun c => c == ']') afterOpen with
    | some (_, _ :: afterText) =>
      match afterText with
      | '(' :: afterParen =>
        match takeUntil (fun c => c == ')' || c == '#') afterParen with
        | some (tgt, stop :: afterStop) =>
          if tgt.isEmpty then none
          else if stop == ')' then some (tgt, afterStop)
          else
            match takeUntil (fun c => c == ')') afterStop with
            | some (_, _ :: afterClose) => some (tgt, afterClose)
            | _ => none
        | _ => none
      | _ => none
    | _ => none
  | _ => none

/-- Left-to-right scan collecting every link in the claim's sense. -/
def specFindLinkTargets : Nat → List Char → List (List Char)
  | 0, _ => []
  | fuel + 1, cs =>
    match cs with
    | [] => []
    | _ :: rest =>
      match specMatchLinkAt cs with
      | some (tgt, after) => tgt :: specFindLinkTargets fuel after
      | none => specFindLinkTargets fuel rest

/-- The targets of all markdown links of the content, in the claim's sense. -/
def specExtractTargets (content : List Char) : List (List Char) :=
  specFindLinkTargets content.length content

/-- Follows the claim's words: report exactly those markdown links whose
target is non-empty after stripping whitespace, does not start with
`http://`, `https://` or `mailto:`, and whose fragment-stripped target,
resolved against the containing file's directory, does not exist. -/
def specBrokenLinks (fs : List (List String)) (files : List MDFile) :
    List (List String × List Char × List String) :=
  files.flatMap fun f =>
    (specExtractTargets f.content).filterMap fun tgt =>
      if (stripWs tgt).isEmpty then none
      else if isExternalLink (stripWs tgt) then none
      else if fs.contains (resolveUnder (dirOf f.path) (stripWs tgt)) then none
      else some (f.path, stripWs tgt, resolveUnder (dirOf f.path) (stripWs tgt))

/-- A file whose first link carries a `#` fragment and is followed, on the
same line, by a second link with a missing target `z`. -/
def exFile : MDFile := ⟨["d", "f.md"], "[a](x#y) [b](z)".data⟩

/-- A filesystem on which `x` exists but `z` does not. -/
def exFS : List (List String) := [["d"], ["d", "f.md"], ["d", "x"]]

/-- C9 counterexample: on `exFile`, the greedy fragment of `LINK_PATTERN`
makes the first match span up to the final `')'` of the line, so the second
link `[b](z)` is never extracted and its broken target `z` goes unreported,
while the claim's reading reports it.  Hence `_find_broken_links` does not
report exactly the links described by the claim. -/
theorem c9_broken_links_counterexample :
    findBrokenLinks exFS [exFile] = [] ∧
    specBrokenLinks exFS [exFile] = [(["d", "f.md"], ['z'], ["d", "z"])] ∧
    findBrokenLinks exFS [exFile] ≠ specBrokenLinks exFS [exFile] := by
  refine ⟨by decide, by decide, by decide⟩

/-- C9 (amended): `_find_broken_links` reports exactly those links extracted
by the regex scan — in which a fragment-bearing link's match extends to the
last `')'` on its line, so links beginning inside that span are skipped —
whose target is non-empty after stripping whitespace, does not start with
`http://`, `https://` or `mailto:`, and, resolved against the containing
file's directory, does not exist on the filesystem. -/
theorem c9_broken_links_characterization (fs : List (List String))
    (files : List MDFile) (p : List String) (raw : List Char)
    (resolved : List String) :
    (p, raw, resolved) ∈ findBrokenLinks fs files ↔
      ∃ f ∈ files, f.path = p ∧
        ∃ tgt ∈ extractTargets f.content,
          raw = stripWs tgt ∧ raw ≠ [] ∧ isExternalLink raw = false ∧
          resolved = resolveUnder (dirOf f.path) raw ∧
          fs.contains resolved = false := by
  unfold findBrokenLinks extractInternalLinks
  rw [List.mem_flatMap]
  constructor
  · rintro ⟨f, hf, hmem⟩
    rw [List.mem_filterMap] at hmem
    obtain ⟨link, hlink, hsome⟩ := hmem
    obtain ⟨l1, l2⟩ := link
    rw [List.mem_filterMap] at hlink
    obtain ⟨tgt, htgt, hsome2⟩ := hlink
    cases h1 : (stripWs tgt).isEmpty with
    | true => rw [h1] at hsome2; simp at hsome2
    | false =>
        rw [h1] at hsome2
        cases h2 : isExternalLink (stripWs tgt) with
        | true => rw [h2] at hsome2; simp at hsome2
        | false =>
            rw [h2] at hsome2
            simp at hsome2
            obtain ⟨hl1, hl2⟩ := hsome2
            subst hl1
            subst hl2
            cases hcon : fs.contains (stripWs tgt, resolveUnder (dirOf f.path) (stripWs tgt)).2 with
            | true => rw [hcon] at hsome; simp at hsome
            | false =>
                rw [hcon] at hsome
                simp at hsome
                obtain ⟨hp, hraw, hres⟩ := hsome
                subst hp
                subst hraw
                subst hres
                refine ⟨f, hf, rfl, tgt, htgt, rfl, ?_, h2, rfl, hcon⟩
                intro hr
                rw [hr] at h1
                exact Bool.noConfusion h1
  · rintro ⟨f, hf, hp, tgt, htgt, hraw, hne, hext, hres, hcon⟩
    refine ⟨f, hf, ?_⟩
    rw [List.mem_filterMap]
    refine ⟨(raw, resolved), ?_, ?_⟩
    · rw [List.mem_filterMap]
      refine ⟨tgt, htgt, ?_⟩
      have h1 : (stripWs tgt).isEmpty = false := by
        rw [← hraw]
        cases hr : raw with
        | nil => exact absurd hr hne
        | cons a l => rfl
      have h2 : isExternalLink (stripWs tgt) = false := by rw [← hraw]; exact hext
      rw [h1, h2, if_neg (fun hf => Bool.noConfusion hf),
        if_neg (fun hf => Bool.noConfusion hf), ← hraw, ← hres]
    · show (if fs.contains resolved then none
          else some (f.path, raw, resolved)) = some (p, raw, resolved)
      rw [hcon, if_neg (fun hf => Bool.noConfusion hf), hp]

/-- A file containing one plain link whose target `missing` does not exist. -/
def exFile2 : MDFile := ⟨["d", "g.md"], "[a](missing)".data⟩

theorem c9_broken_links_characterization_witness :
    (["d", "g.md"], "missing".data, ["d", "missing"]) ∈ findBrokenLinks exFS [exFile2] :=
  (c9_broken_links_characterization exFS [exFile2] ["d", "g.md"] "missing".data
      ["d", "missing"]).mpr
    ⟨exFile2, List.mem_cons_self exFile2 [], rfl, "missing".data, by decide, rfl,
      by decide, by decide, by decide, by decide⟩

end RustFfmpegLinks
